import Mathlib

/-!
Shallow embedding of the newtemp.sh ephemeral file-drop service
(src/src/main.rs and src/src/config.rs) and proofs about its registry,
upload/download handlers, sweeper and blob-store deletion.

Modelling conventions:
* `Instant` is a `Nat` (abstract monotone clock value, in seconds).
* The registry `HashMap<String, FileEntry>` is an association list
  `List (String × FileEntry)`; well-formed maps have no duplicate keys
  (a `HashMap` cannot hold two bindings for one key).
* Machine integers (`u32` remaining hits, `u64` durations) are `Nat`s;
  where wrap-around could matter the theorems state exactness of the
  subtraction explicitly.
* The filesystem is an association list from path to byte list; fallible
  I/O (`fs::write`, `fs::remove_file`) is driven by explicit oracles.
* Each handler returns, besides its result, a trace of events (lock
  acquisition/release, registry insert/remove, file write/read/delete)
  in the order the corresponding Rust statements execute, so ordering
  claims (write-then-register, read-before-delete, critical sections)
  are statable.
-/

/-- Mirrors `struct FileEntry` in src/src/main.rs (lines 53-60). -/
structure FileEntry where
  path : String
  filename : String
  expires_at : Nat
  remaining_hits : Nat
  content_type : Option String
  deriving DecidableEq

/-- The registry map `HashMap<String, FileEntry>` as an association list. -/
abbrev RegMap := List (String × FileEntry)

/-- The blob store: mapping from path to stored bytes. -/
abbrev FsState := List (String × List Nat)

/-- Trace events emitted by the embedded handlers, in Rust statement order. -/
inductive Event where
  | lockAcq : Event
  | lockRel : Event
  | regInsert (id : String) : Event
  | regRemove (id : String) : Event
  | fsWrite (path : String) : Event
  | fsRead (path : String) : Event
  | fsDelete (path : String) : Event
  deriving DecidableEq

/-- First binding for a key, like `HashMap::get`. -/
def lookupKey (id : String) : RegMap → Option FileEntry
  | [] => none
  | (k, e) :: rest => if k = id then some e else lookupKey id rest

/-- Remove a key's bindings, like `HashMap::remove` (on a duplicate-free map). -/
def removeKey (id : String) : RegMap → RegMap
  | [] => []
  | p :: rest => if p.1 = id then removeKey id rest else p :: removeKey id rest

/-- In-place update of the value bound to `id`, like mutation through `get_mut`. -/
def updateKey (id : String) (v : FileEntry) : RegMap → RegMap
  | [] => []
  | p :: rest =>
    if p.1 = id then (p.1, v) :: updateKey id v rest else p :: updateKey id v rest

/-- `HashMap::insert` (the inserted binding shadows, and on a duplicate-free
map replaces, any previous one). -/
def insertKey (id : String) (v : FileEntry) (m : RegMap) : RegMap :=
  (id, v) :: removeKey id m

/-- A registry map is well formed when no key is bound twice
(a `HashMap` cannot hold duplicate keys). -/
def WFMap (m : RegMap) : Prop :=
  (m.map Prod.fst).Nodup

/-- Lookup in the blob store (`fs::read` succeeds iff the path is present). -/
def lookupFs (path : String) : FsState → Option (List Nat)
  | [] => none
  | (p, bs) :: rest => if p = path then some bs else lookupFs path rest

/-- Validity of one character of an HTTP header value, following the `http`
crate check used by `HeaderValue::from_str`: byte value at least 32 and not
127, or a horizontal tab (multi-byte UTF-8 characters only produce bytes
at or above 128, which that check accepts, so a per-character test on
code points is equivalent). -/
def validHeaderChar (c : Char) : Bool :=
  c = '\t' || (32 ≤ c.toNat && c.toNat ≠ 127)

/-- `HeaderValue::from_str` succeeds exactly when every character is valid. -/
def isValidHeaderValue (s : String) : Bool :=
  s.data.all validHeaderChar

/-- The formatted `Content-Disposition` value from src/src/main.rs line 236. -/
def contentDispositionValue (filename : String) : String :=
  "attachment; filename=\"" ++ filename ++ "\""

/-- Headers of a successful download response (src/src/main.rs lines 234-246):
each header is inserted only when `HeaderValue::from_str` accepts the
formatted value; an invalid value is silently skipped. -/
def responseHeaders (filename : String) (content_type : Option String) :
    List (String × String) :=
  (if isValidHeaderValue (contentDispositionValue filename) then
    [("content-disposition", contentDispositionValue filename)]
  else []) ++
  (let ct := content_type.getD "application/octet-stream"
   if isValidHeaderValue ct then [("content-type", ct)] else [])

/-- Result of the download handler, as observable at the HTTP boundary.
`notFound` covers both the missing-entry and the expired branch (the code
returns `AppError::NotFound` for both); `ioErr` is a failed `fs::read`. -/
inductive DlOutcome where
  | notFound : DlOutcome
  | ioErr : DlOutcome
  | ok (status : Nat) (headers : List (String × String)) (body : List Nat) : DlOutcome
  deriving DecidableEq

/-- Whether a download outcome is a successful (200) response. -/
def DlOutcome.isOk : DlOutcome → Bool
  | .ok _ _ _ => true
  | _ => false

/-- The download handler `download` (src/src/main.rs lines 199-249).
State passing mirrors the Rust statement order: lock, lookup, expiry
check (removing and deleting on expiry), terminal check against
`remaining_hits <= 1`, removal or in-place decrement under the lock,
then `fs::read` outside the lock, then (terminal only, and only after a
successful read — the `?` on `fs::read` returns before `delete_file`)
the file deletion. -/
def download (m : RegMap) (id : String) (now : Nat) (fs : FsState) :
    RegMap × List Event × DlOutcome :=
  match lookupKey id m with
  | none => (m, [Event.lockAcq, Event.lockRel], DlOutcome.notFound)
  | some entry =>
    if entry.expires_at ≤ now then
      (removeKey id m,
       [Event.lockAcq, Event.regRemove id, Event.lockRel, Event.fsDelete entry.path],
       DlOutcome.notFound)
    else if entry.remaining_hits ≤ 1 then
      match lookupFs entry.path fs with
      | some bytes =>
        (removeKey id m,
         [Event.lockAcq, Event.regRemove id, Event.lockRel,
          Event.fsRead entry.path, Event.fsDelete entry.path],
         DlOutcome.ok 200 (responseHeaders entry.filename entry.content_type) bytes)
      | none =>
        (removeKey id m,
         [Event.lockAcq, Event.regRemove id, Event.lockRel, Event.fsRead entry.path],
         DlOutcome.ioErr)
    else
      match lookupFs entry.path fs with
      | some bytes =>
        (updateKey id { entry with remaining_hits := entry.remaining_hits - 1 } m,
         [Event.lockAcq, Event.lockRel, Event.fsRead entry.path],
         DlOutcome.ok 200 (responseHeaders entry.filename entry.content_type) bytes)
      | none =>
        (updateKey id { entry with remaining_hits := entry.remaining_hits - 1 } m,
         [Event.lockAcq, Event.lockRel, Event.fsRead entry.path],
         DlOutcome.ioErr)

/-- Split a character list at every occurrence of `sep` (kernel-reducible
counterpart of `String::split`, used for path component and dot handling). -/
def splitOnChar (sep : Char) : List Char → List (List Char)
  | [] => [[]]
  | c :: rest =>
    let r := splitOnChar sep rest
    if c = sep then [] :: r
    else
      match r with
      | [] => [[c]]
      | g :: gs => (c :: g) :: gs

/-- `Path::new(&filename).extension()` as used at src/src/main.rs lines
157-162: the final path component (empty and current-dir components are
not file names), split at its last dot; no dot, a lone leading dot, or the
component being the parent-dir marker yield no extension. -/
def rustExtension (filename : String) : Option String :=
  let comps := (splitOnChar '/' filename.data).filter
    (fun c => !c.isEmpty && c ≠ ['.'])
  let name := comps.getLastD []
  if name.isEmpty || name = ['.', '.'] then none
  else
    match splitOnChar '.' name with
    | [] => none
    | [_] => none
    | first :: rest =>
      if first.isEmpty && rest.length = 1 then none
      else some (String.mk (rest.getLastD []))

/-- IPv4/port socket address (the form the default configuration uses;
IPv6 textual forms are not modelled). -/
structure SocketAddr where
  a : Nat
  b : Nat
  c : Nat
  d : Nat
  port : Nat
  deriving DecidableEq

/-- Decimal digit-string parser: `some` iff nonempty and all digits. -/
def parseDigits (cs : List Char) : Option Nat :=
  if cs.isEmpty then none
  else if cs.all Char.isDigit then
    some (cs.foldl (fun n c => n * 10 + (c.toNat - 48)) 0)
  else none

def u64Max : Nat := 2 ^ 64 - 1

def u32Max : Nat := 2 ^ 32 - 1

/-- Rust `str::parse` for an unsigned integer type with maximum `maxVal`:
an optional leading plus sign, then digits; overflow is a parse error. -/
def rustParseNat (maxVal : Nat) (s : String) : Option Nat :=
  let cs :=
    match s.data with
    | '+' :: rest => rest
    | cs => cs
  match parseDigits cs with
  | some v => if v ≤ maxVal then some v else none
  | none => none

/-- One IPv4 octet: digits only, no leading zero, at most 255. -/
def parseIpOctet (s : String) : Option Nat :=
  match s.data with
  | '0' :: _ :: _ => none
  | cs =>
    match parseDigits cs with
    | some v => if v ≤ 255 then some v else none
    | none => none

/-- Port number: digits, at most 65535. -/
def parsePort (s : String) : Option Nat :=
  match parseDigits s.data with
  | some v => if v ≤ 65535 then some v else none
  | none => none

/-- `"a.b.c.d:port".parse::<SocketAddr>()` (IPv4 textual form). -/
def parseSocketAddr (s : String) : Option SocketAddr :=
  match splitOnChar ':' s.data with
  | [ipChars, portChars] =>
    match splitOnChar '.' ipChars with
    | [x, y, z, w] =>
      match parseIpOctet (String.mk x), parseIpOctet (String.mk y),
            parseIpOctet (String.mk z), parseIpOctet (String.mk w),
            parsePort (String.mk portChars) with
      | some a, some b, some c, some d, some p =>
        some { a := a, b := b, c := c, d := d, port := p }
      | _, _, _, _, _ => none
    | _ => none
  | _ => none

/-- Runtime configuration, mirroring `AppConfig` in src/src/config.rs
lines 8-15 plus the four fields `main.rs` reads from it
(`upload_page_enabled`, `upload_password`, `use_filename_suffix` and the
base URL behind `build_download_url`) whose declarations are not present
under src/ and are therefore modelled from the spec. Durations are in
seconds. -/
structure AppConfig where
  address : SocketAddr
  storage_dir : String
  ttl : Nat
  cleanup_interval : Nat
  max_downloads : Nat
  upload_page_enabled : Bool
  upload_password : String
  use_filename_suffix : Bool
  base_url : String
  deriving DecidableEq

/-- Modelled from the spec: the upload-page enablement flag and the
filename-extension-suffix toggle are environment-sourced booleans,
optional with a default (absent means disabled); their loader is not in
src/src/config.rs although src/src/main.rs reads the fields. -/
def envFlag (v : Option String) : Bool :=
  match v with
  | some s => s = "true" || s = "1"
  | none => false

/-- Modelled from the spec: the shared upload password is an
environment-sourced string, optional with a default; its loader is not in
src/src/config.rs although src/src/main.rs compares against the field. -/
def envUploadPassword (v : Option String) : String :=
  v.getD ""

/-- Modelled from the spec: the base URL used to build the returned
download link, environment-sourced and optional; its loader is not in
src/src/config.rs. -/
def envBaseUrl (v : Option String) : String :=
  v.getD ""

/-- `AppConfig::from_env` (src/src/config.rs lines 18-52): every
parameter is optional; absent or unparsable values fall back to defaults
(`0.0.0.0:8080`, `data`, 60-minute TTL, 1-minute sweep interval, 3
downloads). Minute values are multiplied by 60 with `u64` saturation.
The last four fields are resolved by the spec-modelled helpers. -/
def AppConfig.from_env (env : String → Option String) : AppConfig :=
  let addressStr := (env "ADDRESS").getD "0.0.0.0:8080"
  { address := (parseSocketAddr addressStr).getD { a := 0, b := 0, c := 0, d := 0, port := 8080 },
    storage_dir := (env "STORAGE_DIR").getD "data",
    ttl := (((env "DEFAULT_TTL_MINS").bind (rustParseNat u64Max)).map
      (fun minutes => min (minutes * 60) u64Max)).getD (60 * 60),
    cleanup_interval := (((env "CLEANUP_INTERVAL_MINS").bind (rustParseNat u64Max)).map
      (fun minutes => min (minutes * 60) u64Max)).getD 60,
    max_downloads := ((env "MAX_DOWNLOADS").bind (rustParseNat u32Max)).getD 3,
    upload_page_enabled := envFlag (env "ENABLE_UPLOAD_PAGE"),
    upload_password := envUploadPassword (env "UPLOAD_PASSWORD"),
    use_filename_suffix := envFlag (env "USE_FILENAME_SUFFIX"),
    base_url := envBaseUrl (env "BASE_URL") }

/-- Modelled from the spec: `AppConfig::build_download_url` (called at
src/src/main.rs line 191 but not defined under src/) joins the configured
base URL with the `/d/` download route for the token. -/
def buildDownloadUrl (cfg : AppConfig) (download_id : String) : String :=
  cfg.base_url ++ "/d/" ++ download_id

/-- Result of the upload handler at the HTTP boundary
(`UploadResponse` fields inlined into the success constructor). -/
inductive UpOutcome where
  | unauthorized : UpOutcome
  | noFileProvided : UpOutcome
  | ioErr : UpOutcome
  | ok (url : String) (expires_in_minutes : Nat) (remaining_downloads : Nat) : UpOutcome
  deriving DecidableEq

/-- The public download token (src/src/main.rs lines 156-170): the uuid,
optionally suffixed with the original file's nonempty extension when the
toggle is on. -/
def uploadDownloadId (cfg : AppConfig) (uuid : String) (filename : String) : String :=
  let suffix :=
    if cfg.use_filename_suffix then
      ((rustExtension filename).filter (fun ext => !ext.isEmpty)).map
        (fun ext => "." ++ ext)
    else none
  match suffix with
  | some ext => uuid ++ ext
  | none => uuid

/-- The upload handler `upload` (src/src/main.rs lines 121-197) after
multipart parsing: `provided_password` and `file_data` are the parsed
fields, `uuid` the freshly generated identifier, `writeOk` the outcome
of `fs::write`. Statement order as in the source: password gate, missing
file gate, suffix/token/path computation, `fs::write` (an error returns
immediately), then entry construction and registry insert, then the JSON
response. -/
def upload (cfg : AppConfig) (m : RegMap)
    (provided_password : Option String)
    (file_data : Option (String × Option String × List Nat))
    (uuid : String) (now : Nat) (writeOk : Bool) :
    RegMap × List Event × UpOutcome :=
  if cfg.upload_page_enabled && cfg.upload_password ≠ provided_password.getD "" then
    (m, [], UpOutcome.unauthorized)
  else
    match file_data with
    | none => (m, [], UpOutcome.noFileProvided)
    | some (filename, content_type, _data) =>
      let download_id := uploadDownloadId cfg uuid filename
      let path := cfg.storage_dir ++ "/" ++ download_id
      if writeOk then
        let entry : FileEntry :=
          { path := path, filename := filename, expires_at := now + cfg.ttl,
            remaining_hits := cfg.max_downloads, content_type := content_type }
        (insertKey download_id entry m,
         [Event.fsWrite path, Event.lockAcq, Event.regInsert download_id, Event.lockRel],
         UpOutcome.ok (buildDownloadUrl cfg download_id) (cfg.ttl / 60) cfg.max_downloads)
      else
        (m, [Event.fsWrite path], UpOutcome.ioErr)

/-- The sweep loop body (src/src/main.rs lines 271-276): for each
snapshot item, remove the id under the lock, release the lock, delete the
file, re-acquire the lock; the guard acquired last is dropped when the
function returns. -/
def purgeLoop : List (String × String) → RegMap → RegMap × List Event
  | [], m => (m, [Event.lockRel])
  | (id, path) :: rest, m =>
    let step := purgeLoop rest (removeKey id m)
    (step.1,
     Event.regRemove id :: Event.lockRel :: Event.fsDelete path :: Event.lockAcq :: step.2)

/-- The snapshot collected under the first lock acquisition
(src/src/main.rs lines 264-269): id and path of every entry with
`expires_at <= now`. -/
def expiredSnapshot (now : Nat) : RegMap → List (String × String)
  | [] => []
  | p :: rest =>
    if p.2.expires_at ≤ now then (p.1, p.2.path) :: expiredSnapshot now rest
    else expiredSnapshot now rest

/-- `purge_expired` (src/src/main.rs lines 261-277): lock, snapshot the
expired entries, then loop removing each and deleting its file with the
lock released around each deletion. -/
def purge_expired (m : RegMap) (now : Nat) : RegMap × List Event :=
  let step := purgeLoop (expiredSnapshot now m) m
  (step.1, Event.lockAcq :: step.2)

/-- Remove a path from the blob store. -/
def removeFsPath (path : String) : FsState → FsState
  | [] => []
  | p :: rest =>
    if p.1 = path then removeFsPath path rest else p :: removeFsPath path rest

/-- Error kinds of `fs::remove_file` as far as `delete_file`
distinguishes them: `NotFound` versus anything else. -/
inductive IoKind where
  | notFoundK : IoKind
  | otherK : IoKind
  deriving DecidableEq

/-- `fs::remove_file`: fails with `NotFound` iff the path is absent;
an otherwise-doomed call (permissions and the like) is driven by the
`oracle` argument. -/
def removeFile (fs : FsState) (path : String) (oracle : Option IoKind) :
    FsState × Option IoKind :=
  if (lookupFs path fs).isNone then (fs, some IoKind.notFoundK)
  else
    match oracle with
    | some k => (fs, some k)
    | none => (removeFsPath path fs, none)

/-- `delete_file` (src/src/main.rs lines 279-285): best-effort removal;
a `NotFound` failure is silently ignored, any other failure is logged
with `warn`; no error is ever returned to the caller. -/
def delete_file (fs : FsState) (path : String) (oracle : Option IoKind) :
    FsState × List String :=
  match removeFile fs path oracle with
  | (fsNew, none) => (fsNew, [])
  | (fsNew, some k) =>
    (fsNew, if k = IoKind.notFoundK then [] else ["warn: failed to remove file " ++ path])

/-- Whether an event is a registry insertion. -/
def Event.isRegInsert : Event → Bool
  | .regInsert _ => true
  | _ => false

/-- Whether an event is a registry removal. -/
def Event.isRegRemove : Event → Bool
  | .regRemove _ => true
  | _ => false

/-- No registry insertion anywhere in the trace. -/
def noRegInsert (tr : List Event) : Bool :=
  tr.all (fun ev => ! ev.isRegInsert)

/-- No `fs::write` anywhere in the trace. -/
def noFsWrite (tr : List Event) : Bool :=
  tr.all (fun ev =>
    match ev with
    | Event.fsWrite _ => false
    | _ => true)

/-- Every deletion of `p` in the trace is preceded by a read of `p`:
scanning left to right, a delete of `p` seen before any read of `p`
falsifies the property. -/
def readPrecedesDelete (p : String) : List Event → Bool
  | [] => true
  | Event.fsDelete q :: rest =>
    if q = p then false else readPrecedesDelete p rest
  | Event.fsRead q :: rest =>
    if q = p then true else readPrecedesDelete p rest
  | _ :: rest => readPrecedesDelete p rest

/-- Every registry insertion of `id` in the trace is preceded by a write
of `p` (write-then-register). -/
def writePrecedesInsert (p : String) (id : String) : List Event → Bool
  | [] => true
  | Event.regInsert j :: rest =>
    if j = id then false else writePrecedesInsert p id rest
  | Event.fsWrite q :: rest =>
    if q = p then true else writePrecedesInsert p id rest
  | _ :: rest => writePrecedesInsert p id rest

/-- All registry removals of the trace happen strictly before the first
lock release, i.e. inside one exclusive critical section. -/
def removalsWithinOneSection (tr : List Event) : Bool :=
  (tr.dropWhile (fun ev => ! (ev == Event.lockRel))).all
    (fun ev => ! ev.isRegRemove)

/-- Number of lock acquisitions in a trace. -/
def countLockAcq (tr : List Event) : Nat :=
  tr.countP (fun ev => ev == Event.lockAcq)

/-- Iterated application of the download handler's registry effect. -/
def iterDownload (id : String) (now : Nat) (fs : FsState) (m : RegMap) : Nat → RegMap
  | 0 => m
  | k + 1 => (download (iterDownload id now fs m k) id now fs).1

/-- All registry entries keep at least one remaining hit. -/
def regAtLeastOne (m : RegMap) : Prop :=
  ∀ p, p ∈ m → 1 ≤ p.2.remaining_hits

/-- Registry states reachable from the empty map through the three
operations that touch the map (upload, download, sweep), for a fixed
configuration. -/
inductive Reachable (cfg : AppConfig) : RegMap → Prop where
  | empty : Reachable cfg []
  | upload_step (m : RegMap) (pw : Option String)
      (fd : Option (String × Option String × List Nat)) (uuid : String)
      (now : Nat) (w : Bool) (h : Reachable cfg m) :
      Reachable cfg (upload cfg m pw fd uuid now w).1
  | download_step (m : RegMap) (id : String) (now : Nat) (fs : FsState)
      (h : Reachable cfg m) : Reachable cfg (download m id now fs).1
  | purge_step (m : RegMap) (now : Nat) (h : Reachable cfg m) :
      Reachable cfg (purge_expired m now).1

/-!  Association-list lemmas used by the claim proofs. -/

theorem lookupKey_removeKey (j id : String) (m : RegMap) :
    lookupKey j (removeKey id m) = if j = id then none else lookupKey j m := by
  induction m with
  | nil => simp [removeKey, lookupKey]
  | cons p rest ih =>
    obtain ⟨k, e⟩ := p
    rw [removeKey]
    by_cases hk : k = id
    · rw [if_pos hk, ih, lookupKey]
      by_cases hj : j = id
      · rw [if_pos hj, if_pos hj]
      · rw [if_neg hj, if_neg hj, if_neg (fun hc : k = j => hj (hc ▸ hk))]
    · rw [if_neg hk, lookupKey, lookupKey]
      by_cases hkj : k = j
      · have hj : ¬ j = id := fun hc => hk (by rw [hkj, hc])
        rw [if_pos hkj, if_neg hj, if_pos hkj]
      · rw [if_neg hkj, if_neg hkj, ih]

theorem lookupKey_updateKey (j id : String) (v : FileEntry) (m : RegMap) :
    lookupKey j (updateKey id v m) =
      if j = id then (lookupKey id m).map (fun _ => v) else lookupKey j m := by
  induction m with
  | nil => simp [updateKey, lookupKey]
  | cons p rest ih =>
    obtain ⟨k, e⟩ := p
    rw [updateKey]
    by_cases hk : k = id
    · rw [if_pos hk, lookupKey]
      by_cases hkj : k = j
      · have hj : j = id := by rw [hkj] at hk; exact hk
        rw [if_pos hkj, if_pos hj, lookupKey, if_pos hk]
        rfl
      · rw [if_neg hkj, ih]
        by_cases hj : j = id
        · exact absurd (hk.trans hj.symm) hkj
        · rw [if_neg hj, if_neg hj, lookupKey, if_neg hkj]
    · rw [if_neg hk, lookupKey]
      by_cases hkj : k = j
      · have hj : ¬ j = id := fun hc => hk (by rw [hkj, hc])
        rw [if_pos hkj, if_neg hj, lookupKey, if_pos hkj]
      · rw [if_neg hkj, ih]
        by_cases hj : j = id
        · rw [if_pos hj, if_pos hj, lookupKey, if_neg hk]
        · rw [if_neg hj, if_neg hj, lookupKey, if_neg hkj]

theorem mem_removeKey (id : String) (m : RegMap) (p : String × FileEntry)
    (hp : p ∈ removeKey id m) : p ∈ m := by
  induction m with
  | nil => simp [removeKey] at hp
  | cons q rest ih =>
    rw [removeKey] at hp
    by_cases hq : q.1 = id
    · rw [if_pos hq] at hp
      exact List.mem_cons_of_mem q (ih hp)
    · rw [if_neg hq] at hp
      rcases List.mem_cons.mp hp with h | h
      · exact h ▸ List.mem_cons_self q rest
      · exact List.mem_cons_of_mem q (ih h)

theorem purgeLoop_fst (l : List (String × String)) (m : RegMap) :
    (purgeLoop l m).1 = l.foldl (fun acc it => removeKey it.1 acc) m := by
  induction l generalizing m with
  | nil => rfl
  | cons it rest ih =>
    obtain ⟨id, path⟩ := it
    simp only [purgeLoop, List.foldl_cons]
    exact ih (removeKey id m)

theorem lookupKey_foldl_removeKey (l : List (String × String)) (m : RegMap) (j : String) :
    lookupKey j (l.foldl (fun acc it => removeKey it.1 acc) m) =
      if j ∈ l.map Prod.fst then none else lookupKey j m := by
  induction l generalizing m with
  | nil => simp
  | cons it rest ih =>
    obtain ⟨id, path⟩ := it
    rw [List.foldl_cons, ih, List.map_cons]
    by_cases hmem : j ∈ rest.map Prod.fst
    · rw [if_pos hmem, if_pos (List.mem_cons_of_mem _ hmem)]
    · rw [if_neg hmem, lookupKey_removeKey]
      by_cases hj : j = id
      · rw [if_pos hj, if_pos (by rw [hj]; exact List.mem_cons_self _ _)]
      · rw [if_neg hj,
          if_neg (fun hc => (List.mem_cons.mp hc).elim hj hmem)]

theorem mem_foldl_removeKey (l : List (String × String)) (m : RegMap)
    (p : String × FileEntry)
    (hp : p ∈ l.foldl (fun acc it => removeKey it.1 acc) m) : p ∈ m := by
  induction l generalizing m with
  | nil => exact hp
  | cons it rest ih =>
    rw [List.foldl_cons] at hp
    exact mem_removeKey it.1 m p (ih (removeKey it.1 m) hp)

theorem lookupKey_eq_of_mem (m : RegMap) (hwf : WFMap m) (p : String × FileEntry)
    (hp : p ∈ m) : lookupKey p.1 m = some p.2 := by
  induction m with
  | nil => simp at hp
  | cons q rest ih =>
    obtain ⟨k, e⟩ := q
    have hnd : ¬ k ∈ rest.map Prod.fst ∧ (rest.map Prod.fst).Nodup := by
      have h2 := hwf
      rw [WFMap, List.map_cons, List.nodup_cons] at h2
      exact h2
    rcases List.mem_cons.mp hp with h | h
    · subst h
      rw [lookupKey, if_pos rfl]
    · have hk : ¬ k = p.1 := by
        intro hc
        exact hnd.1 (hc ▸ List.mem_map_of_mem Prod.fst h)
      rw [lookupKey, if_neg hk]
      exact ih hnd.2 h

theorem mem_of_lookupKey_eq (m : RegMap) (j : String) (e : FileEntry)
    (h : lookupKey j m = some e) : (j, e) ∈ m := by
  induction m with
  | nil => simp [lookupKey] at h
  | cons q rest ih =>
    obtain ⟨k, v⟩ := q
    rw [lookupKey] at h
    by_cases hk : k = j
    · rw [if_pos hk] at h
      injection h with h2
      subst hk
      subst h2
      exact List.mem_cons_self _ _
    · rw [if_neg hk] at h
      exact List.mem_cons_of_mem _ (ih h)

theorem fst_mem_expiredSnapshot (m : RegMap) (now : Nat) (j : String) :
    j ∈ (expiredSnapshot now m).map Prod.fst ↔
      ∃ p, p ∈ m ∧ p.1 = j ∧ p.2.expires_at ≤ now := by
  induction m with
  | nil => simp [expiredSnapshot]
  | cons q rest ih =>
    obtain ⟨k, e⟩ := q
    rw [expiredSnapshot]
    by_cases hexp : e.expires_at ≤ now
    · rw [if_pos hexp, List.map_cons]
      constructor
      · intro h
        rcases List.mem_cons.mp h with h | h
        · exact ⟨(k, e), List.mem_cons_self _ _, h.symm, hexp⟩
        · rcases ih.mp h with ⟨p, hp, hj, he⟩
          exact ⟨p, List.mem_cons_of_mem _ hp, hj, he⟩
      · rintro ⟨p, hp, hj, he⟩
        rcases List.mem_cons.mp hp with h | h
        · exact List.mem_cons.mpr (Or.inl (by rw [← hj, h]))
        · exact List.mem_cons_of_mem _ (ih.mpr ⟨p, h, hj, he⟩)
    · rw [if_neg hexp]
      constructor
      · intro h
        rcases ih.mp h with ⟨p, hp, hj, he⟩
        exact ⟨p, List.mem_cons_of_mem _ hp, hj, he⟩
      · rintro ⟨p, hp, hj, he⟩
        rcases List.mem_cons.mp hp with h | h
        · exact absurd (show e.expires_at ≤ now by rw [h] at he; exact he) hexp
        · exact ih.mpr ⟨p, h, hj, he⟩

theorem purgeLoop_trace_mem (l : List (String × String)) (m : RegMap)
    (id path : String) (h : (id, path) ∈ l) :
    Event.regRemove id ∈ (purgeLoop l m).2 ∧
      Event.fsDelete path ∈ (purgeLoop l m).2 := by
  induction l generalizing m with
  | nil => simp at h
  | cons it rest ih =>
    obtain ⟨i2, p2⟩ := it
    rcases List.mem_cons.mp h with h | h
    · injection h with h1 h2
      subst h1
      subst h2
      simp [purgeLoop]
    · have h2 := ih (removeKey i2 m) h
      simp only [purgeLoop]
      exact ⟨by simp [h2.1], by simp [h2.2]⟩

theorem purgeLoop_noRegInsert (l : List (String × String)) (m : RegMap) :
    noRegInsert (purgeLoop l m).2 = true := by
  induction l generalizing m with
  | nil => rfl
  | cons it rest ih =>
    obtain ⟨i2, p2⟩ := it
    show noRegInsert (Event.regRemove i2 :: Event.lockRel :: Event.fsDelete p2 ::
      Event.lockAcq :: (purgeLoop rest (removeKey i2 m)).2) = true
    rw [noRegInsert, List.all_cons, List.all_cons, List.all_cons, List.all_cons]
    have h2 := ih (removeKey i2 m)
    rw [noRegInsert] at h2
    rw [h2]
    rfl

theorem mem_updateKey (id : String) (v : FileEntry) (m : RegMap)
    (p : String × FileEntry) (hp : p ∈ updateKey id v m) :
    p.2 = v ∨ p ∈ m := by
  induction m with
  | nil => simp [updateKey] at hp
  | cons q rest ih =>
    rw [updateKey] at hp
    by_cases hq : q.1 = id
    · rw [if_pos hq] at hp
      rcases List.mem_cons.mp hp with h | h
      · exact Or.inl (by rw [h])
      · rcases ih h with h2 | h2
        · exact Or.inl h2
        · exact Or.inr (List.mem_cons_of_mem q h2)
    · rw [if_neg hq] at hp
      rcases List.mem_cons.mp hp with h | h
      · exact Or.inr (h ▸ List.mem_cons_self q rest)
      · rcases ih h with h2 | h2
        · exact Or.inl h2
        · exact Or.inr (List.mem_cons_of_mem q h2)

/-! # Claim theorems -/

/-- C1: the download handler behaves as the spec's `Consume`: a missing
id yields not-found with no state change; an entry with
`now >= expires_at` is removed, its backing file deleted, and not-found
surfaced; a live entry with `remaining_downloads <= 1` is the terminal
consumption — removed, with the file deleted only after the payload has
been read; otherwise `remaining_downloads` is decremented in place and
the entry stays live (no file deletion). -/
theorem claim_c1_consume_behavior (m : RegMap) (id : String) (now : Nat) (fs : FsState) :
    (lookupKey id m = none →
      (download m id now fs).1 = m ∧
      (download m id now fs).2.2 = DlOutcome.notFound) ∧
    (∀ e, lookupKey id m = some e → e.expires_at ≤ now →
      (∀ j, lookupKey j (download m id now fs).1 =
        if j = id then none else lookupKey j m) ∧
      Event.fsDelete e.path ∈ (download m id now fs).2.1 ∧
      (download m id now fs).2.2 = DlOutcome.notFound) ∧
    (∀ e bytes, lookupKey id m = some e → now < e.expires_at →
      e.remaining_hits ≤ 1 → lookupFs e.path fs = some bytes →
      (∀ j, lookupKey j (download m id now fs).1 =
        if j = id then none else lookupKey j m) ∧
      Event.fsRead e.path ∈ (download m id now fs).2.1 ∧
      Event.fsDelete e.path ∈ (download m id now fs).2.1 ∧
      readPrecedesDelete e.path (download m id now fs).2.1 = true ∧
      (download m id now fs).2.2 =
        DlOutcome.ok 200 (responseHeaders e.filename e.content_type) bytes) ∧
    (∀ e, lookupKey id m = some e → now < e.expires_at → 2 ≤ e.remaining_hits →
      lookupKey id (download m id now fs).1 =
        some { e with remaining_hits := e.remaining_hits - 1 } ∧
      (∀ j, ¬ j = id → lookupKey j (download m id now fs).1 = lookupKey j m) ∧
      (∀ p, ¬ Event.fsDelete p ∈ (download m id now fs).2.1)) := by
  refine ⟨?_, ?_, ?_, ?_⟩
  · intro h
    simp [download, h]
  · intro e he hexp
    have hd : download m id now fs =
        (removeKey id m,
         [Event.lockAcq, Event.regRemove id, Event.lockRel, Event.fsDelete e.path],
         DlOutcome.notFound) := by
      simp [download, he, hexp]
    rw [hd]
    refine ⟨fun j => lookupKey_removeKey j id m, by simp, rfl⟩
  · intro e bytes he hexp hle hfs
    have hne : ¬ e.expires_at ≤ now := Nat.not_le.mpr hexp
    have hd : download m id now fs =
        (removeKey id m,
         [Event.lockAcq, Event.regRemove id, Event.lockRel,
          Event.fsRead e.path, Event.fsDelete e.path],
         DlOutcome.ok 200 (responseHeaders e.filename e.content_type) bytes) := by
      simp [download, he, hne, hle, hfs]
    rw [hd]
    refine ⟨fun j => lookupKey_removeKey j id m, by simp, by simp, ?_, rfl⟩
    simp [readPrecedesDelete]
  · intro e he hexp hge
    have hne : ¬ e.expires_at ≤ now := Nat.not_le.mpr hexp
    have hnle : ¬ e.remaining_hits ≤ 1 := by omega
    have hmap : (download m id now fs).1 =
        updateKey id { e with remaining_hits := e.remaining_hits - 1 } m := by
      cases hfs : lookupFs e.path fs with
      | none => simp [download, he, hne, hnle, hfs]
      | some bytes => simp [download, he, hne, hnle, hfs]
    have htr : (download m id now fs).2.1 =
        [Event.lockAcq, Event.lockRel, Event.fsRead e.path] := by
      cases hfs : lookupFs e.path fs with
      | none => simp [download, he, hne, hnle, hfs]
      | some bytes => simp [download, he, hne, hnle, hfs]
    refine ⟨?_, ?_, ?_⟩
    · rw [hmap, lookupKey_updateKey, if_pos rfl, he]
      rfl
    · intro j hj
      rw [hmap, lookupKey_updateKey, if_neg hj]
    · intro p
      rw [htr]
      simp

/-- Witness for C1: each branch exercised at a concrete registry. -/
theorem claim_c1_consume_behavior_witness :
    ((download ([] : RegMap) "i" 0 []).1 = [] ∧
     (download ([] : RegMap) "i" 0 []).2.2 = DlOutcome.notFound) ∧
    (Event.fsDelete "p" ∈
      (download [("i", ⟨"p", "f", 5, 2, none⟩)] "i" 7 []).2.1 ∧
     (download [("i", ⟨"p", "f", 5, 2, none⟩)] "i" 7 []).2.2 = DlOutcome.notFound) ∧
    (readPrecedesDelete "p"
      (download [("i", ⟨"p", "f", 9, 1, none⟩)] "i" 0 [("p", [1, 2])]).2.1 = true ∧
     (download [("i", ⟨"p", "f", 9, 1, none⟩)] "i" 0 [("p", [1, 2])]).2.2 =
       DlOutcome.ok 200 (responseHeaders "f" none) [1, 2]) ∧
    lookupKey "i" (download [("i", ⟨"p", "f", 9, 3, none⟩)] "i" 0 []).1 =
      some ⟨"p", "f", 9, 2, none⟩ := by
  refine ⟨?_, ?_, ?_, ?_⟩
  · exact (claim_c1_consume_behavior [] "i" 0 []).1 rfl
  · have h := (claim_c1_consume_behavior [("i", ⟨"p", "f", 5, 2, none⟩)] "i" 7 []).2.1
      ⟨"p", "f", 5, 2, none⟩ rfl (by decide)
    exact ⟨h.2.1, h.2.2⟩
  · have h := (claim_c1_consume_behavior [("i", ⟨"p", "f", 9, 1, none⟩)] "i" 0
      [("p", [1, 2])]).2.2.1 ⟨"p", "f", 9, 1, none⟩ [1, 2] rfl (by decide) (by decide) rfl
    exact ⟨h.2.2.2.1, h.2.2.2.2⟩
  · exact ((claim_c1_consume_behavior [("i", ⟨"p", "f", 9, 3, none⟩)] "i" 0 []).2.2.2
      ⟨"p", "f", 9, 3, none⟩ rfl (by decide) (by decide)).1

/-- C4 counterexample: with the interactive surface enabled and the
configured shared password being the empty string, a request with a
*missing* password field is accepted — the claim's "missing ... fails
with Unauthorized" is false: the upload succeeds, writes the file and
inserts a registry entry. -/
theorem claim_c4_counterexample :
    (upload ⟨⟨0, 0, 0, 0, 8080⟩, "data", 60, 60, 3, true, "", false, ""⟩ []
        none (some ("f", none, [1])) "u" 0 true).2.2 = UpOutcome.ok "/d/u" 1 3 ∧
    lookupKey "u" (upload ⟨⟨0, 0, 0, 0, 8080⟩, "data", 60, 60, 3, true, "", false, ""⟩ []
        none (some ("f", none, [1])) "u" 0 true).1 =
      some ⟨"data/u", "f", 60, 3, none⟩ ∧
    Event.fsWrite "data/u" ∈ (upload ⟨⟨0, 0, 0, 0, 8080⟩, "data", 60, 60, 3, true, "", false, ""⟩ []
        none (some ("f", none, [1])) "u" 0 true).2.1 := by
  refine ⟨by decide, by decide, ?_⟩
  decide

/-- C4 (amended): a missing secret is treated as the empty string; the
upload is rejected with `Unauthorized` exactly when the surface is
enabled and the configured password differs from the provided-or-empty
secret, and a rejected upload leaves the registry untouched and performs
no filesystem event at all (in particular no write and no insert). -/
theorem claim_c4_amended_unauthorized (cfg : AppConfig) (m : RegMap)
    (pw : Option String) (fd : Option (String × Option String × List Nat))
    (uuid : String) (now : Nat) (w : Bool) :
    ((upload cfg m pw fd uuid now w).2.2 = UpOutcome.unauthorized ↔
      cfg.upload_page_enabled = true ∧ ¬ cfg.upload_password = pw.getD "") ∧
    (cfg.upload_page_enabled = true → ¬ cfg.upload_password = pw.getD "" →
      (upload cfg m pw fd uuid now w).1 = m ∧
      (upload cfg m pw fd uuid now w).2.1 = []) := by
  by_cases hen : cfg.upload_page_enabled = true
  · by_cases hpw : cfg.upload_password = pw.getD ""
    · refine ⟨⟨fun hout => ?_, fun hand => absurd hpw hand.2⟩,
        fun _ hand => absurd hpw hand⟩
      exfalso
      cases fd with
      | none => simp [upload, hpw] at hout
      | some t =>
        obtain ⟨fn, ct, data⟩ := t
        cases w <;> simp [upload, hpw] at hout
    · have hu : upload cfg m pw fd uuid now w = (m, [], UpOutcome.unauthorized) := by
        simp [upload, hen, hpw]
      rw [hu]
      exact ⟨⟨fun _ => ⟨hen, hpw⟩, fun _ => rfl⟩, fun _ _ => ⟨rfl, rfl⟩⟩
  · have hen2 : cfg.upload_page_enabled = false := by
      revert hen
      cases cfg.upload_page_enabled <;> simp
    refine ⟨⟨fun hout => ?_, fun hand => absurd hand.1 hen⟩, fun h1 => absurd h1 hen⟩
    exfalso
    cases fd with
    | none => simp [upload, hen2] at hout
    | some t =>
      obtain ⟨fn, ct, data⟩ := t
      cases w <;> simp [upload, hen2] at hout

/-- Witness for C4 (amended): enabled surface with password "s" and a
missing secret is rejected with no state change. -/
theorem claim_c4_amended_unauthorized_witness :
    (upload ⟨⟨0, 0, 0, 0, 8080⟩, "data", 60, 60, 3, true, "s", false, ""⟩ []
        none (some ("f", none, [1])) "u" 0 true).2.2 = UpOutcome.unauthorized ∧
    (upload ⟨⟨0, 0, 0, 0, 8080⟩, "data", 60, 60, 3, true, "s", false, ""⟩ []
        none (some ("f", none, [1])) "u" 0 true).1 = [] ∧
    (upload ⟨⟨0, 0, 0, 0, 8080⟩, "data", 60, 60, 3, true, "s", false, ""⟩ []
        none (some ("f", none, [1])) "u" 0 true).2.1 = [] := by
  have h := claim_c4_amended_unauthorized
    ⟨⟨0, 0, 0, 0, 8080⟩, "data", 60, 60, 3, true, "s", false, ""⟩ []
    none (some ("f", none, [1])) "u" 0 true
  have h2 := h.2 rfl (by decide)
  exact ⟨h.1.mpr ⟨rfl, by decide⟩, h2.1, h2.2⟩

/-- C5: write-then-register. If `fs::write` fails the upload surfaces a
storage error and the registry is unchanged (no insert event at all); if
it succeeds, the trace contains the write strictly before the registry
insertion of the token, and the published entry references exactly the
written path. -/
theorem claim_c5_write_then_register (cfg : AppConfig) (m : RegMap)
    (pw : Option String) (uuid : String) (now : Nat)
    (fn : String) (ct : Option String) (data : List Nat)
    (hgate : cfg.upload_page_enabled = true → cfg.upload_password = pw.getD "") :
    ((upload cfg m pw (some (fn, ct, data)) uuid now false).1 = m ∧
     (upload cfg m pw (some (fn, ct, data)) uuid now false).2.2 = UpOutcome.ioErr ∧
     noRegInsert (upload cfg m pw (some (fn, ct, data)) uuid now false).2.1 = true) ∧
    (Event.fsWrite (cfg.storage_dir ++ "/" ++ uploadDownloadId cfg uuid fn) ∈
       (upload cfg m pw (some (fn, ct, data)) uuid now true).2.1 ∧
     Event.regInsert (uploadDownloadId cfg uuid fn) ∈
       (upload cfg m pw (some (fn, ct, data)) uuid now true).2.1 ∧
     writePrecedesInsert (cfg.storage_dir ++ "/" ++ uploadDownloadId cfg uuid fn)
       (uploadDownloadId cfg uuid fn)
       (upload cfg m pw (some (fn, ct, data)) uuid now true).2.1 = true ∧
     lookupKey (uploadDownloadId cfg uuid fn)
       (upload cfg m pw (some (fn, ct, data)) uuid now true).1 =
       some ⟨cfg.storage_dir ++ "/" ++ uploadDownloadId cfg uuid fn, fn,
         now + cfg.ttl, cfg.max_downloads, ct⟩) := by
  have hu1 : upload cfg m pw (some (fn, ct, data)) uuid now false =
      (m, [Event.fsWrite (cfg.storage_dir ++ "/" ++ uploadDownloadId cfg uuid fn)],
       UpOutcome.ioErr) := by
    by_cases hen : cfg.upload_page_enabled = true
    · simp [upload, hgate hen]
    · have hen2 : cfg.upload_page_enabled = false := by
        revert hen
        cases cfg.upload_page_enabled <;> simp
      simp [upload, hen2]
  have hu2 : upload cfg m pw (some (fn, ct, data)) uuid now true =
      (insertKey (uploadDownloadId cfg uuid fn)
        ⟨cfg.storage_dir ++ "/" ++ uploadDownloadId cfg uuid fn, fn,
          now + cfg.ttl, cfg.max_downloads, ct⟩ m,
       [Event.fsWrite (cfg.storage_dir ++ "/" ++ uploadDownloadId cfg uuid fn),
        Event.lockAcq, Event.regInsert (uploadDownloadId cfg uuid fn), Event.lockRel],
       UpOutcome.ok (buildDownloadUrl cfg (uploadDownloadId cfg uuid fn))
         (cfg.ttl / 60) cfg.max_downloads) := by
    by_cases hen : cfg.upload_page_enabled = true
    · simp [upload, hgate hen]
    · have hen2 : cfg.upload_page_enabled = false := by
        revert hen
        cases cfg.upload_page_enabled <;> simp
      simp [upload, hen2]
  rw [hu1, hu2]
  refine ⟨⟨rfl, rfl, rfl⟩, by simp, by simp, ?_, ?_⟩
  · simp [writePrecedesInsert]
  · simp [insertKey, lookupKey]

/-- Witness for C5: concrete failed and successful uploads. -/
theorem claim_c5_write_then_register_witness :
    ((upload ⟨⟨0, 0, 0, 0, 8080⟩, "data", 60, 60, 3, false, "", false, ""⟩ []
        none (some ("f", none, [1])) "u" 0 false).1 = [] ∧
     (upload ⟨⟨0, 0, 0, 0, 8080⟩, "data", 60, 60, 3, false, "", false, ""⟩ []
        none (some ("f", none, [1])) "u" 0 false).2.2 = UpOutcome.ioErr) ∧
    writePrecedesInsert "data/u" "u"
      (upload ⟨⟨0, 0, 0, 0, 8080⟩, "data", 60, 60, 3, false, "", false, ""⟩ []
        none (some ("f", none, [1])) "u" 0 true).2.1 = true := by
  have h := claim_c5_write_then_register
    ⟨⟨0, 0, 0, 0, 8080⟩, "data", 60, 60, 3, false, "", false, ""⟩ []
    none "u" 0 "f" none [1] (fun hc => by cases hc)
  exact ⟨⟨h.1.1, h.1.2.1⟩, h.2.2.2.1⟩

/-- C6: with an empty environment every parameter resolves to its
default — listen address 0.0.0.0:8080, storage directory "data", TTL
3600 s (60 minutes), sweep interval 60 s (1 minute), 3 downloads per
entry — and for every environment the loader also resolves the
upload-page enablement flag, the shared upload password, the
filename-extension-suffix toggle, and the base URL used to build the
returned download link. -/
theorem claim_c6_config_defaults :
    AppConfig.from_env (fun _ => none) =
      { address := ⟨0, 0, 0, 0, 8080⟩, storage_dir := "data", ttl := 3600,
        cleanup_interval := 60, max_downloads := 3, upload_page_enabled := false,
        upload_password := "", use_filename_suffix := false, base_url := "" } ∧
    (∀ env : String → Option String,
      (AppConfig.from_env env).upload_page_enabled = envFlag (env "ENABLE_UPLOAD_PAGE") ∧
      (AppConfig.from_env env).upload_password = envUploadPassword (env "UPLOAD_PASSWORD") ∧
      (AppConfig.from_env env).use_filename_suffix = envFlag (env "USE_FILENAME_SUFFIX") ∧
      (AppConfig.from_env env).base_url = envBaseUrl (env "BASE_URL") ∧
      buildDownloadUrl (AppConfig.from_env env) "t" =
        envBaseUrl (env "BASE_URL") ++ "/d/" ++ "t") :=
  ⟨by decide, fun env => ⟨rfl, rfl, rfl, rfl, rfl⟩⟩

theorem lookupFs_removeFsPath (path : String) (fs : FsState) :
    lookupFs path (removeFsPath path fs) = none := by
  induction fs with
  | nil => rfl
  | cons p rest ih =>
    obtain ⟨q, bs⟩ := p
    by_cases hq : q = path
    · simpa [removeFsPath, hq] using ih
    · simpa [removeFsPath, lookupFs, hq] using ih

/-- C9: backing-file deletion is idempotent and never observable as an
error: deleting a missing path changes nothing and logs nothing (treated
as success); deleting the same path a second time is a silent no-op; a
non-`NotFound` failure is logged and swallowed with the store unchanged
(the function's return carries no error); and neither the sweep nor the
download handler ever emits a registry insertion, so no deletion outcome
can resurrect an already-removed entry. -/
theorem claim_c9_delete_idempotent :
    (∀ fs path oracle, lookupFs path fs = none →
      delete_file fs path oracle = (fs, [])) ∧
    (∀ fs path oracle,
      delete_file (delete_file fs path none).1 path oracle =
        ((delete_file fs path none).1, [])) ∧
    (∀ fs path k, ¬ k = IoKind.notFoundK → (lookupFs path fs).isSome = true →
      delete_file fs path (some k) =
        (fs, ["warn: failed to remove file " ++ path])) ∧
    (∀ m now, noRegInsert (purge_expired m now).2 = true) ∧
    (∀ m id now fs, noRegInsert (download m id now fs).2.1 = true) := by
  refine ⟨?_, ?_, ?_, ?_, ?_⟩
  · intro fs path oracle h
    simp [delete_file, removeFile, h]
  · intro fs path oracle
    cases h : lookupFs path fs with
    | none =>
      have h1 : delete_file fs path none = (fs, []) := by
        simp [delete_file, removeFile, h]
      rw [h1]
      simp [delete_file, removeFile, h]
    | some bs =>
      have h1 : (delete_file fs path none).1 = removeFsPath path fs := by
        simp [delete_file, removeFile, h]
      rw [h1]
      simp [delete_file, removeFile, lookupFs_removeFsPath]
  · intro fs path k hk hsome
    have h0 : (lookupFs path fs).isNone = false := by
      cases h2 : lookupFs path fs with
      | none => rw [h2] at hsome; simp at hsome
      | some bs => rfl
    simp [delete_file, removeFile, h0, hk]
  · intro m now
    show noRegInsert (Event.lockAcq :: (purgeLoop (expiredSnapshot now m) m).2) = true
    rw [noRegInsert, List.all_cons]
    have h2 := purgeLoop_noRegInsert (expiredSnapshot now m) m
    rw [noRegInsert] at h2
    rw [h2]
    rfl
  · intro m id now fs
    cases he : lookupKey id m with
    | none => simp [download, he, noRegInsert, Event.isRegInsert]
    | some e =>
      by_cases hexp : e.expires_at ≤ now
      · simp [download, he, hexp, noRegInsert, Event.isRegInsert]
      · by_cases hle : e.remaining_hits ≤ 1
        · cases hfs : lookupFs e.path fs <;>
            simp [download, he, hexp, hle, hfs, noRegInsert, Event.isRegInsert]
        · cases hfs : lookupFs e.path fs <;>
            simp [download, he, hexp, hle, hfs, noRegInsert, Event.isRegInsert]

/-- Witness for C9: deleting a missing path succeeds silently; a
non-`NotFound` failure on a present path is logged and swallowed. -/
theorem claim_c9_delete_idempotent_witness :
    delete_file [] "p" none = ([], []) ∧
    delete_file [("p", [1])] "p" (some IoKind.otherK) =
      ([("p", [1])], ["warn: failed to remove file p"]) :=
  ⟨claim_c9_delete_idempotent.1 [] "p" none rfl,
   claim_c9_delete_idempotent.2.2.1 [("p", [1])] "p" IoKind.otherK (by decide) rfl⟩


theorem iterDownload_single (id : String) (e : FileEntry) (now : Nat) (fs : FsState)
    (bytes : List Nat) (hexp : now < e.expires_at)
    (hfs : lookupFs e.path fs = some bytes) :
    ∀ k, k ≤ e.remaining_hits → 1 ≤ e.remaining_hits →
      iterDownload id now fs [(id, e)] k =
        if k = e.remaining_hits then []
        else [(id, { e with remaining_hits := e.remaining_hits - k })] := by
  have hne : ¬ e.expires_at ≤ now := Nat.not_le.mpr hexp
  intro k
  induction k with
  | zero =>
    intro _ h1
    rw [if_neg (by omega)]
    simp [iterDownload]
  | succ k ih =>
    intro hk h1
    have hmk := ih (by omega) h1
    rw [iterDownload]
    by_cases hkn : k + 1 = e.remaining_hits
    · rw [if_pos hkn, hmk, if_neg (by omega)]
      have hle : e.remaining_hits - k ≤ 1 := by omega
      simp [download, lookupKey, hne, hle, hfs, removeKey]
    · rw [if_neg hkn, hmk, if_neg (by omega)]
      have hnle : ¬ e.remaining_hits - k ≤ 1 := by omega
      have harith : e.remaining_hits - k - 1 = e.remaining_hits - (k + 1) := by omega
      simp [download, lookupKey, hne, hnle, hfs, updateKey, harith]

/-- C2 (amended): for every entry created with a budget `n >= 1`
(`remaining_hits = n`), the observed counters across successive consumes
are exactly `n, n-1, ..., 1` — strictly decreasing and never negative —
every one of those `n` consumes succeeds, the entry disappears exactly at
the `n`-th consumption (the one that would bring the count to 0), and the
next consume is not-found. (For the boundary `max_downloads = 0` the code
instead serves one terminal download; see the counterexample.) -/
theorem claim_c2_amended_download_budget (id : String) (e : FileEntry) (now : Nat)
    (fs : FsState) (bytes : List Nat) (n : Nat)
    (hn : e.remaining_hits = n) (h1 : 1 ≤ n)
    (hexp : now < e.expires_at) (hfs : lookupFs e.path fs = some bytes) :
    (∀ k, k < n →
      iterDownload id now fs [(id, e)] k =
        [(id, { e with remaining_hits := n - k })] ∧
      1 ≤ n - k ∧ n - (k + 1) < n - k ∧
      (download (iterDownload id now fs [(id, e)] k) id now fs).2.2.isOk = true) ∧
    iterDownload id now fs [(id, e)] n = [] ∧
    (download (iterDownload id now fs [(id, e)] n) id now fs).2.2 =
      DlOutcome.notFound := by
  subst hn
  have hne : ¬ e.expires_at ≤ now := Nat.not_le.mpr hexp
  have haux := iterDownload_single id e now fs bytes hexp hfs
  have hmn : iterDownload id now fs [(id, e)] e.remaining_hits = [] := by
    rw [haux e.remaining_hits (le_refl _) h1, if_pos rfl]
  refine ⟨?_, hmn, ?_⟩
  · intro k hk
    have hmk := haux k (by omega) h1
    rw [if_neg (by omega)] at hmk
    refine ⟨hmk, by omega, by omega, ?_⟩
    rw [hmk]
    by_cases hle : e.remaining_hits - k ≤ 1
    · simp [download, lookupKey, hne, hle, hfs, DlOutcome.isOk]
    · simp [download, lookupKey, hne, hle, hfs, DlOutcome.isOk]
  · rw [hmn]
    simp [download, lookupKey]

/-- Witness for C2 (amended): budget 2 — two successful downloads, the
second removes the entry, the third is not-found. -/
theorem claim_c2_amended_download_budget_witness :
    iterDownload "i" 0 [("p", [1])] [("i", ⟨"p", "f", 10, 2, none⟩)] 1 =
      [("i", ⟨"p", "f", 10, 1, none⟩)] ∧
    (download (iterDownload "i" 0 [("p", [1])] [("i", ⟨"p", "f", 10, 2, none⟩)] 1)
      "i" 0 [("p", [1])]).2.2.isOk = true ∧
    iterDownload "i" 0 [("p", [1])] [("i", ⟨"p", "f", 10, 2, none⟩)] 2 = [] ∧
    (download (iterDownload "i" 0 [("p", [1])] [("i", ⟨"p", "f", 10, 2, none⟩)] 2)
      "i" 0 [("p", [1])]).2.2 = DlOutcome.notFound := by
  have h := claim_c2_amended_download_budget "i" ⟨"p", "f", 10, 2, none⟩ 0
    [("p", [1])] [1] 2 rfl (by decide) (by decide) rfl
  exact ⟨(h.1 1 (by decide)).1, (h.1 1 (by decide)).2.2.2, h.2.1, h.2.2⟩

/-- C2 counterexample: the claim fails at the boundary
`max_downloads = 0` — the uploaded entry has `remaining_hits = 0`, yet
the first consume is treated as terminal (`remaining_hits <= 1`) and
serves the payload: the entry admits one successful download where the
claim requires zero. -/
theorem claim_c2_counterexample :
    (upload ⟨⟨0, 0, 0, 0, 8080⟩, "data", 60, 60, 0, false, "", false, ""⟩ []
        none (some ("f", none, [7])) "u" 0 true).1 =
      [("u", ⟨"data/u", "f", 60, 0, none⟩)] ∧
    (download [("u", ⟨"data/u", "f", 60, 0, none⟩)] "u" 5 [("data/u", [7])]).2.2 =
      DlOutcome.ok 200 [("content-disposition", "attachment; filename=\"f\""),
        ("content-type", "application/octet-stream")] [7] ∧
    (download [("u", ⟨"data/u", "f", 60, 0, none⟩)] "u" 5 [("data/u", [7])]).1 = [] := by
  exact ⟨by decide, by decide, by decide⟩

theorem countLockAcq_purgeLoop (l : List (String × String)) (m : RegMap) :
    countLockAcq (purgeLoop l m).2 = l.length := by
  induction l generalizing m with
  | nil => rfl
  | cons it rest ih =>
    obtain ⟨i2, p2⟩ := it
    show countLockAcq (Event.regRemove i2 :: Event.lockRel :: Event.fsDelete p2 ::
      Event.lockAcq :: (purgeLoop rest (removeKey i2 m)).2) = rest.length + 1
    have h2 := ih (removeKey i2 m)
    rw [countLockAcq] at h2 ⊢
    simp only [List.countP_cons, h2, beq_iff_eq]
    simp

/-- C3 counterexample: with two expired entries the sweep's removals do
not all happen inside one exclusive critical section — the lock is
released (and the loop re-acquires it) between the two removals, and the
tick acquires the lock three times, refuting "atomically removes, within
one exclusive Registry critical section, every entry whose
expires_at <= now". -/
theorem claim_c3_counterexample :
    removalsWithinOneSection (purge_expired [("a", ⟨"pa", "f", 3, 2, none⟩),
        ("b", ⟨"pb", "g", 4, 2, none⟩)] 5).2 = false ∧
    Event.regRemove "a" ∈ (purge_expired [("a", ⟨"pa", "f", 3, 2, none⟩),
        ("b", ⟨"pb", "g", 4, 2, none⟩)] 5).2 ∧
    Event.regRemove "b" ∈ (purge_expired [("a", ⟨"pa", "f", 3, 2, none⟩),
        ("b", ⟨"pb", "g", 4, 2, none⟩)] 5).2 ∧
    countLockAcq (purge_expired [("a", ⟨"pa", "f", 3, 2, none⟩),
        ("b", ⟨"pb", "g", 4, 2, none⟩)] 5).2 = 3 := by
  exact ⟨by decide, by decide, by decide, by decide⟩

/-- C3 (amended): the sweep snapshots the expired entries under the
first lock acquisition, then removes each one and deletes its file
across successive critical sections, releasing the lock around each
deletion (one acquisition per expired entry plus the initial one).
Functionally the tick still removes exactly the entries with
`expires_at <= now` as of the snapshot — with a removal and a
file-deletion event for each — and leaves every other entry unmodified. -/
theorem claim_c3_amended_sweep (m : RegMap) (now : Nat) (hwf : WFMap m) :
    (∀ j, lookupKey j (purge_expired m now).1 =
      match lookupKey j m with
      | some e => if e.expires_at ≤ now then none else some e
      | none => none) ∧
    (∀ id path, (id, path) ∈ expiredSnapshot now m →
      Event.regRemove id ∈ (purge_expired m now).2 ∧
      Event.fsDelete path ∈ (purge_expired m now).2) ∧
    countLockAcq (purge_expired m now).2 = (expiredSnapshot now m).length + 1 := by
  refine ⟨?_, ?_, ?_⟩
  · intro j
    have h1 : (purge_expired m now).1 =
        (expiredSnapshot now m).foldl (fun acc it => removeKey it.1 acc) m := by
      show (purgeLoop (expiredSnapshot now m) m).1 = _
      exact purgeLoop_fst _ _
    rw [h1, lookupKey_foldl_removeKey]
    cases hn : lookupKey j m with
    | none =>
      dsimp only
      split <;> rfl
    | some e =>
      dsimp only
      by_cases hexp : e.expires_at ≤ now
      · have hmem : j ∈ (expiredSnapshot now m).map Prod.fst :=
          (fst_mem_expiredSnapshot m now j).mpr
            ⟨(j, e), mem_of_lookupKey_eq m j e hn, rfl, hexp⟩
        rw [if_pos hmem, if_pos hexp]
      · have hnmem : ¬ j ∈ (expiredSnapshot now m).map Prod.fst := by
          intro hmem
          obtain ⟨p, hp, hpj, hpe⟩ := (fst_mem_expiredSnapshot m now j).mp hmem
          have hl : lookupKey j m = some p.2 := by
            rw [← hpj]
            exact lookupKey_eq_of_mem m hwf p hp
          rw [hn] at hl
          injection hl with hl2
          exact hexp (hl2 ▸ hpe)
        rw [if_neg hnmem, if_neg hexp]
  · intro id path hmem
    have h2 := purgeLoop_trace_mem (expiredSnapshot now m) m id path hmem
    exact ⟨List.mem_cons_of_mem _ h2.1, List.mem_cons_of_mem _ h2.2⟩
  · show countLockAcq (Event.lockAcq :: (purgeLoop (expiredSnapshot now m) m).2) =
      (expiredSnapshot now m).length + 1
    have h2 := countLockAcq_purgeLoop (expiredSnapshot now m) m
    rw [countLockAcq] at h2 ⊢
    simp only [List.countP_cons, h2, beq_iff_eq]
    simp

/-- Witness for C3 (amended): one expired and one live entry — the
expired one is removed, the live one is untouched, two lock
acquisitions. -/
theorem claim_c3_amended_sweep_witness :
    lookupKey "a" (purge_expired [("a", ⟨"pa", "f", 3, 2, none⟩),
        ("b", ⟨"pb", "g", 9, 2, none⟩)] 5).1 = none ∧
    lookupKey "b" (purge_expired [("a", ⟨"pa", "f", 3, 2, none⟩),
        ("b", ⟨"pb", "g", 9, 2, none⟩)] 5).1 = some ⟨"pb", "g", 9, 2, none⟩ ∧
    countLockAcq (purge_expired [("a", ⟨"pa", "f", 3, 2, none⟩),
        ("b", ⟨"pb", "g", 9, 2, none⟩)] 5).2 = 2 := by
  have h := claim_c3_amended_sweep [("a", ⟨"pa", "f", 3, 2, none⟩),
    ("b", ⟨"pb", "g", 9, 2, none⟩)] 5 (by unfold WFMap; decide)
  exact ⟨h.1 "a", h.1 "b", h.2.2⟩

/-- C7 counterexample: an entry whose display name contains a newline
(not a valid HTTP header value): the download still succeeds with 200
and the raw body, but the response carries no `Content-Disposition`
header at all — `HeaderValue::from_str` fails and the insertion is
silently skipped — refuting the claim that every successful response
carries the header even for invalid display names. -/
theorem claim_c7_counterexample :
    (download [("i", ⟨"p", "a\nb", 10, 2, none⟩)] "i" 0 [("p", [1])]).2.2 =
      DlOutcome.ok 200 [("content-type", "application/octet-stream")] [1] := by
  decide

/-- C7 (amended): every successful download response has status 200 and
body equal to the raw stored bytes, with headers built from the entry:
the `Content-Disposition` value `attachment; filename="<display_name>"`
is present exactly when it is a valid header value, and the
`Content-Type` (the recorded type, or application/octet-stream when none
was recorded) exactly when it is valid; an invalid formatted value's
header is silently omitted. -/
theorem claim_c7_amended_response (m : RegMap) (id : String) (now : Nat)
    (fs : FsState) (e : FileEntry) (bytes : List Nat)
    (he : lookupKey id m = some e) (hexp : now < e.expires_at)
    (hfs : lookupFs e.path fs = some bytes) :
    (download m id now fs).2.2 =
      DlOutcome.ok 200 (responseHeaders e.filename e.content_type) bytes ∧
    (isValidHeaderValue (contentDispositionValue e.filename) = true →
      ("content-disposition", contentDispositionValue e.filename) ∈
        responseHeaders e.filename e.content_type) ∧
    (isValidHeaderValue (contentDispositionValue e.filename) = false →
      ∀ v, ¬ ("content-disposition", v) ∈ responseHeaders e.filename e.content_type) ∧
    (isValidHeaderValue (e.content_type.getD "application/octet-stream") = true →
      ("content-type", e.content_type.getD "application/octet-stream") ∈
        responseHeaders e.filename e.content_type) ∧
    (isValidHeaderValue (e.content_type.getD "application/octet-stream") = false →
      ∀ v, ¬ ("content-type", v) ∈ responseHeaders e.filename e.content_type) := by
  have hne : ¬ e.expires_at ≤ now := Nat.not_le.mpr hexp
  refine ⟨?_, ?_, ?_, ?_, ?_⟩
  · by_cases hle : e.remaining_hits ≤ 1
    · simp [download, he, hne, hle, hfs]
    · simp [download, he, hne, hle, hfs]
  · intro h1
    simp [responseHeaders, h1]
  · intro h1 v
    simp only [responseHeaders, h1, if_false, Bool.false_eq_true, List.nil_append]
    split
    · simp
    · simp
  · intro h1
    simp only [responseHeaders]
    exact List.mem_append_right _ (by simp [h1])
  · intro h1 v
    simp only [responseHeaders, h1, if_false, Bool.false_eq_true, List.append_nil]
    split
    · simp
    · simp

/-- Witness for C7 (amended): a well-formed display name yields both
headers; the body is the stored bytes. -/
theorem claim_c7_amended_response_witness :
    (download [("i", ⟨"p", "f", 10, 2, none⟩)] "i" 0 [("p", [9])]).2.2 =
      DlOutcome.ok 200 (responseHeaders "f" none) [9] ∧
    ("content-disposition", contentDispositionValue "f") ∈ responseHeaders "f" none ∧
    ("content-type", "application/octet-stream") ∈ responseHeaders "f" none := by
  have h := claim_c7_amended_response [("i", ⟨"p", "f", 10, 2, none⟩)] "i" 0
    [("p", [9])] ⟨"p", "f", 10, 2, none⟩ [9] rfl (by decide) rfl
  exact ⟨h.1, h.2.1 (by decide), h.2.2.2.1 (by decide)⟩

/-- C8: frame conditions. A surviving entry after a download keeps its
path, display name, expiry deadline and content type (only
`remaining_hits` may change, and only for the consumed id); the sweep
never modifies a surviving entry at all; an upload whose fresh token
differs from `j` leaves the binding of `j` unchanged. In particular
`expires_at` is immutable after creation — no TTL renewal on access. -/
theorem claim_c8_expiry_immutable :
    (∀ m id now fs j e2, lookupKey j (download m id now fs).1 = some e2 →
      (lookupKey j m).map
          (fun e => (e.path, e.filename, e.expires_at, e.content_type)) =
        some (e2.path, e2.filename, e2.expires_at, e2.content_type)) ∧
    (∀ m now j e2, lookupKey j (purge_expired m now).1 = some e2 →
      lookupKey j m = some e2) ∧
    (∀ cfg m pw fd uuid now w j,
      (∀ fn ct data, fd = some (fn, ct, data) → ¬ j = uploadDownloadId cfg uuid fn) →
      lookupKey j (upload cfg m pw fd uuid now w).1 = lookupKey j m) := by
  refine ⟨?_, ?_, ?_⟩
  · intro m id now fs j e2 h
    cases he : lookupKey id m with
    | none =>
      rw [show (download m id now fs).1 = m by simp [download, he]] at h
      rw [h]
      rfl
    | some e =>
      by_cases hexp : e.expires_at ≤ now
      · rw [show (download m id now fs).1 = removeKey id m by
          simp [download, he, hexp]] at h
        rw [lookupKey_removeKey] at h
        by_cases hj : j = id
        · rw [if_pos hj] at h
          exact absurd h (by simp)
        · rw [if_neg hj] at h
          rw [h]
          rfl
      · by_cases hle : e.remaining_hits ≤ 1
        · rw [show (download m id now fs).1 = removeKey id m by
            cases hfs : lookupFs e.path fs <;> simp [download, he, hexp, hle, hfs]] at h
          rw [lookupKey_removeKey] at h
          by_cases hj : j = id
          · rw [if_pos hj] at h
            exact absurd h (by simp)
          · rw [if_neg hj] at h
            rw [h]
            rfl
        · rw [show (download m id now fs).1 =
            updateKey id { e with remaining_hits := e.remaining_hits - 1 } m by
            cases hfs : lookupFs e.path fs <;> simp [download, he, hexp, hle, hfs]] at h
          rw [lookupKey_updateKey] at h
          by_cases hj : j = id
          · rw [if_pos hj, he] at h
            injection h with h2
            rw [hj, he, ← h2]
            rfl
          · rw [if_neg hj] at h
            rw [h]
            rfl
  · intro m now j e2 h
    rw [show (purge_expired m now).1 =
      (expiredSnapshot now m).foldl (fun acc it => removeKey it.1 acc) m from
      purgeLoop_fst _ _] at h
    rw [lookupKey_foldl_removeKey] at h
    by_cases hmem : j ∈ (expiredSnapshot now m).map Prod.fst
    · rw [if_pos hmem] at h
      exact absurd h (by simp)
    · rw [if_neg hmem] at h
      exact h
  · intro cfg m pw fd uuid now w j hfresh
    cases fd with
    | none =>
      simp only [upload]
      split
      · rfl
      · rfl
    | some t =>
      obtain ⟨fn, ct, data⟩ := t
      have hj : ¬ j = uploadDownloadId cfg uuid fn := hfresh fn ct data rfl
      simp only [upload]
      split
      · rfl
      · cases w with
        | false => rfl
        | true =>
          show lookupKey j (insertKey (uploadDownloadId cfg uuid fn)
            ⟨cfg.storage_dir ++ "/" ++ uploadDownloadId cfg uuid fn, fn,
              now + cfg.ttl, cfg.max_downloads, ct⟩ m) = lookupKey j m
          rw [insertKey, lookupKey, if_neg (fun hc => hj hc.symm),
            lookupKey_removeKey, if_neg hj]

/-- Witness for C8: a decremented survivor keeps path, name, expiry and
content type; a live entry survives a sweep unchanged; an upload of a
fresh token leaves an existing binding alone. -/
theorem claim_c8_expiry_immutable_witness :
    (lookupKey "i" [("i", (⟨"p", "f", 9, 3, none⟩ : FileEntry))]).map
        (fun e => (e.path, e.filename, e.expires_at, e.content_type)) =
      some ("p", "f", 9, none) ∧
    lookupKey "b" (purge_expired [("b", ⟨"pb", "g", 9, 2, none⟩)] 5).1 =
      some ⟨"pb", "g", 9, 2, none⟩ ∧
    lookupKey "b" (upload ⟨⟨0, 0, 0, 0, 8080⟩, "data", 60, 60, 3, false, "", false, ""⟩
        [("b", ⟨"pb", "g", 9, 2, none⟩)] none (some ("f", none, [1])) "u" 0 true).1 =
      lookupKey "b" [("b", ⟨"pb", "g", 9, 2, none⟩)] := by
  refine ⟨?_, ?_, ?_⟩
  · exact claim_c8_expiry_immutable.1 [("i", ⟨"p", "f", 9, 3, none⟩)] "i" 0 []
      "i" ⟨"p", "f", 9, 2, none⟩ (by decide)
  · exact claim_c8_expiry_immutable.2.1 [("b", ⟨"pb", "g", 9, 2, none⟩)] 5
      "b" ⟨"pb", "g", 9, 2, none⟩ (by decide)
  · exact claim_c8_expiry_immutable.2.2
      ⟨⟨0, 0, 0, 0, 8080⟩, "data", 60, 60, 3, false, "", false, ""⟩
      [("b", ⟨"pb", "g", 9, 2, none⟩)] none (some ("f", none, [1])) "u" 0 true "b"
      (fun fn ct data hfd => by
        injection hfd with h2
        injection h2 with h3 h4
        subst h3
        decide)


theorem download_preserves_atLeastOne (m : RegMap) (id : String) (now : Nat)
    (fs : FsState) (hm : regAtLeastOne m) :
    regAtLeastOne (download m id now fs).1 := by
  cases he : lookupKey id m with
  | none =>
    rw [show (download m id now fs).1 = m by simp [download, he]]
    exact hm
  | some e =>
    by_cases hexp : e.expires_at ≤ now
    · rw [show (download m id now fs).1 = removeKey id m by simp [download, he, hexp]]
      intro p hp
      exact hm p (mem_removeKey id m p hp)
    · by_cases hle : e.remaining_hits ≤ 1
      · rw [show (download m id now fs).1 = removeKey id m by
          cases hfs : lookupFs e.path fs <;> simp [download, he, hexp, hle, hfs]]
        intro p hp
        exact hm p (mem_removeKey id m p hp)
      · rw [show (download m id now fs).1 =
          updateKey id { e with remaining_hits := e.remaining_hits - 1 } m by
          cases hfs : lookupFs e.path fs <;> simp [download, he, hexp, hle, hfs]]
        intro p hp
        rcases mem_updateKey id _ m p hp with h2 | h2
        · rw [h2]
          show 1 ≤ e.remaining_hits - 1
          omega
        · exact hm p h2

theorem upload_preserves_atLeastOne (cfg : AppConfig) (m : RegMap)
    (pw : Option String) (fd : Option (String × Option String × List Nat))
    (uuid : String) (now : Nat) (w : Bool) (hcfg : 1 ≤ cfg.max_downloads)
    (hm : regAtLeastOne m) : regAtLeastOne (upload cfg m pw fd uuid now w).1 := by
  cases fd with
  | none =>
    simp only [upload]
    split
    · exact hm
    · exact hm
  | some t =>
    obtain ⟨fn, ct, data⟩ := t
    simp only [upload]
    split
    · exact hm
    · cases w with
      | false => exact hm
      | true =>
        intro p hp
        rcases List.mem_cons.mp hp with h2 | h2
        · rw [h2]
          exact hcfg
        · exact hm p (mem_removeKey _ m p h2)

theorem purge_preserves_atLeastOne (m : RegMap) (now : Nat)
    (hm : regAtLeastOne m) : regAtLeastOne (purge_expired m now).1 := by
  intro p hp
  rw [show (purge_expired m now).1 =
    (expiredSnapshot now m).foldl (fun acc it => removeKey it.1 acc) m from
    purgeLoop_fst _ _] at hp
  exact hm p (mem_foldl_removeKey _ m p hp)

/-- C10: the in-place subtraction runs only on the branch where
`remaining_hits >= 2` — the surviving counter is the exact non-wrapping
predecessor and still at least 1 — while a live entry with
`remaining_hits <= 1` is removed instead of decremented; consequently,
whenever the configured `max_downloads` is at least 1, every registry
state reachable from empty has `remaining_hits >= 1` for every entry it
holds. -/
theorem claim_c10_no_underflow :
    (∀ m id now fs e, lookupKey id m = some e → now < e.expires_at →
      2 ≤ e.remaining_hits →
      lookupKey id (download m id now fs).1 =
        some { e with remaining_hits := e.remaining_hits - 1 } ∧
      e.remaining_hits - 1 + 1 = e.remaining_hits ∧ 1 ≤ e.remaining_hits - 1) ∧
    (∀ m id now fs e, lookupKey id m = some e → now < e.expires_at →
      e.remaining_hits ≤ 1 → lookupKey id (download m id now fs).1 = none) ∧
    (∀ cfg m, 1 ≤ cfg.max_downloads → Reachable cfg m → regAtLeastOne m) := by
  refine ⟨?_, ?_, ?_⟩
  · intro m id now fs e he hexp hge
    have hne : ¬ e.expires_at ≤ now := Nat.not_le.mpr hexp
    have hnle : ¬ e.remaining_hits ≤ 1 := by omega
    rw [show (download m id now fs).1 =
      updateKey id { e with remaining_hits := e.remaining_hits - 1 } m by
      cases hfs : lookupFs e.path fs <;> simp [download, he, hne, hnle, hfs]]
    rw [lookupKey_updateKey, if_pos rfl, he]
    exact ⟨rfl, by omega, by omega⟩
  · intro m id now fs e he hexp hle
    have hne : ¬ e.expires_at ≤ now := Nat.not_le.mpr hexp
    rw [show (download m id now fs).1 = removeKey id m by
      cases hfs : lookupFs e.path fs <;> simp [download, he, hne, hle, hfs]]
    rw [lookupKey_removeKey, if_pos rfl]
  · intro cfg m hcfg hreach
    induction hreach with
    | empty =>
      intro p hp
      simp at hp
    | upload_step m2 pw fd uuid now w h ih =>
      exact upload_preserves_atLeastOne cfg m2 pw fd uuid now w hcfg ih
    | download_step m2 id now fs h ih =>
      exact download_preserves_atLeastOne m2 id now fs ih
    | purge_step m2 now h ih =>
      exact purge_preserves_atLeastOne m2 now ih

/-- Witness for C10: a counter of 2 decrements exactly to 1; a counter
of 1 is removed; a freshly uploaded registry state satisfies the
at-least-one invariant. -/
theorem claim_c10_no_underflow_witness :
    lookupKey "i" (download [("i", ⟨"p", "f", 9, 2, none⟩)] "i" 0 []).1 =
      some ⟨"p", "f", 9, 1, none⟩ ∧
    lookupKey "i" (download [("i", ⟨"p", "f", 9, 1, none⟩)] "i" 0 []).1 = none ∧
    regAtLeastOne (upload ⟨⟨0, 0, 0, 0, 8080⟩, "data", 60, 60, 3, false, "", false, ""⟩
      [] none (some ("f", none, [1])) "u" 0 true).1 := by
  refine ⟨?_, ?_, ?_⟩
  · exact (claim_c10_no_underflow.1 [("i", ⟨"p", "f", 9, 2, none⟩)] "i" 0 []
      ⟨"p", "f", 9, 2, none⟩ rfl (by decide) (by decide)).1
  · exact claim_c10_no_underflow.2.1 [("i", ⟨"p", "f", 9, 1, none⟩)] "i" 0 []
      ⟨"p", "f", 9, 1, none⟩ rfl (by decide) (by decide)
  · exact claim_c10_no_underflow.2.2
      ⟨⟨0, 0, 0, 0, 8080⟩, "data", 60, 60, 3, false, "", false, ""⟩ _ (by decide)
      (Reachable.upload_step [] none (some ("f", none, [1])) "u" 0 true Reachable.empty)
